import Mathlib

/-!
Formal model of the bookmark-parser program (Go sources in `parser/parser.go`
and `main.go`): the folder-aware HTML bookmark walk, the duplicate-detecting
batch import, the link-validation engine, and the filtered export, together
with theorems settling the specified properties.
-/

set_option maxHeartbeats 1000000

namespace BookmarkParser

/-- The Go `Bookmark` struct (`parser.go` lines 16-26).  `DuplicateOf` is
`int64` in Go with zero meaning "unset"; we keep it as a `Nat`. -/
structure Bookmark where
  ID : Nat
  Title : String
  URL : String
  Folder : String
  Dead : Bool
  Redirect : Bool
  RedirectURL : String
  Duplicate : Bool
  DuplicateOf : Nat
deriving DecidableEq, Repr

/-- A bookmark as produced by `Parse` (only title, url, folder set; every
other field is the Go zero value, `parser.go` lines 90-94). -/
def mkParsed (title url folder : String) : Bookmark :=
  ⟨0, title, url, folder, false, false, "", false, 0⟩

/-- A node of the `golang.org/x/net/html` document tree as `Parse` consumes
it: an element node carries its tag (Go `n.Data`), attribute list and
children; every non-element node (text, comment, ...) carries just its
`Data` string and has no children in a parsed bookmark document. -/
inductive HNode where
  | element (tag : String) (attrs : List (String × String)) (children : List HNode)
  | text (data : String)

/-- Go `n.Data` of a child node: the tag for an element, the raw data for a
text node. -/
def nodeData : HNode → String
  | .element tag _ _ => tag
  | .text d => d

/-- Go `strings.TrimSpace`: remove leading and trailing whitespace.
Written over the character list so it evaluates by kernel reduction. -/
def trimSpace (s : String) : String :=
  String.mk (((s.data.dropWhile Char.isWhitespace).reverse.dropWhile Char.isWhitespace).reverse)

/-- The attribute scan of `parser.go` lines 80-85: the first `href`
attribute's value, `""` when absent. -/
def hrefOf (attrs : List (String × String)) : String :=
  match attrs.find? (fun a => a.1 = "href") with
  | some a => a.2
  | none => ""

/-- The mutable state of the Go `traverse` closure (`parser.go` lines
65-66): the current folder label and the bookmarks collected so far. -/
structure ParseState where
  currentFolder : String
  bookmarks : List Bookmark
deriving DecidableEq, Repr

/-- The element-node switch of `parser.go` lines 70-97: an `h3` with a first
child overwrites the current folder with that child's data; an `a` whose
`href` value and first child's data are both non-empty appends a bookmark
whose title is the trimmed data. -/
def visitElement (s : ParseState) (tag : String) (attrs : List (String × String))
    (children : List HNode) : ParseState :=
  if tag = "h3" then
    match children.head? with
    | some c => { s with currentFolder := nodeData c }
    | none => s
  else if tag = "a" then
    let url := hrefOf attrs
    let title :=
      match children.head? with
      | some c => nodeData c
      | none => ""
    if url ≠ "" ∧ title ≠ "" then
      { s with bookmarks := s.bookmarks ++ [mkParsed (trimSpace title) url s.currentFolder] }
    else s
  else s

mutual
/-- The recursive `traverse` of `parser.go` lines 68-102: act on the node,
then recurse into all children. -/
def traverse (s : ParseState) : HNode → ParseState
  | .element tag attrs children => traverseList (visitElement s tag attrs children) children
  | .text _ => s

/-- The child loop of `parser.go` lines 99-101. -/
def traverseList (s : ParseState) : List HNode → ParseState
  | [] => s
  | c :: cs => traverseList (traverse s c) cs
end

/-- `Parse` (`parser.go` lines 59-106) on an already-decoded document tree:
walk from the root with empty folder and no bookmarks.  The `html.Parse`
read error path (unreadable stream) is outside the claims modelled here. -/
def Parse (doc : HNode) : List Bookmark :=
  (traverse ⟨"", []⟩ doc).bookmarks

mutual
/-- Depth-first (preorder) flattening of the document tree: each node
precedes its children, children in order. -/
def preorder : HNode → List HNode
  | .element tag attrs children => .element tag attrs children :: preorderList children
  | .text d => [.text d]

/-- Preorder flattening of a forest. -/
def preorderList : List HNode → List HNode
  | [] => []
  | c :: cs => preorder c ++ preorderList cs
end

/-- One step of the flat treatment of the document: act on a node exactly as
the element switch does, ignoring where in the tree it sat. -/
def specStep (s : ParseState) : HNode → ParseState
  | .element tag attrs children => visitElement s tag attrs children
  | .text _ => s

/-- Spec-side parser, following the spec's words: a *flat* left-to-right
pass over the document-order (preorder) sequence of nodes, with a single
current-folder variable and no folder stack. -/
def specParse (doc : HNode) : List Bookmark :=
  (List.foldl specStep ⟨"", []⟩ (preorder doc)).bookmarks

/-- Spec-side folder label, following the spec's words: the text of the most
recently visited heading (tag `h3`) in document order, the empty string
before any heading; a heading with no child contributes no text. -/
def specLastHeading (f : String) : List HNode → String
  | [] => f
  | n :: rest =>
    match n with
    | .element tag _ cs =>
      if tag = "h3" then
        match cs.head? with
        | some c => specLastHeading (nodeData c) rest
        | none => specLastHeading f rest
      else specLastHeading f rest
    | .text _ => specLastHeading f rest

mutual
theorem traverse_eq_foldl : ∀ (s : ParseState) (n : HNode),
    traverse s n = List.foldl specStep s (preorder n)
  | s, .element tag attrs children => by
      rw [traverse, preorder, List.foldl_cons]
      exact traverseList_eq_foldl (visitElement s tag attrs children) children
  | _, .text d => by rw [traverse, preorder]; rfl

theorem traverseList_eq_foldl : ∀ (s : ParseState) (cs : List HNode),
    traverseList s cs = List.foldl specStep s (preorderList cs)
  | _, [] => rfl
  | s, c :: cs => by
      rw [traverseList, preorderList, List.foldl_append, traverse_eq_foldl s c]
      exact traverseList_eq_foldl _ cs
end

theorem visitElement_currentFolder_ne_h3 (s : ParseState) (tag : String)
    (attrs : List (String × String)) (cs : List HNode) (h : tag ≠ "h3") :
    (visitElement s tag attrs cs).currentFolder = s.currentFolder := by
  unfold visitElement
  rw [if_neg h]
  split
  · split
    · dsimp only
      split <;> rfl
    · dsimp only
      split <;> rfl
  · rfl

theorem foldl_specStep_currentFolder : ∀ (ns : List HNode) (s : ParseState),
    (List.foldl specStep s ns).currentFolder = specLastHeading s.currentFolder ns
  | [], _ => rfl
  | n :: rest, s => by
    cases n with
    | text d =>
      rw [List.foldl_cons, specLastHeading]
      exact foldl_specStep_currentFolder rest s
    | element tag attrs cs =>
      rw [List.foldl_cons, specLastHeading]
      by_cases h : tag = "h3"
      · subst h
        simp only [if_pos]
        cases hc : cs.head? with
        | some c =>
          have hstep : specStep s (.element "h3" attrs cs) =
              { s with currentFolder := nodeData c } := by
            show visitElement s "h3" attrs cs = _
            unfold visitElement
            rw [if_pos rfl, hc]
          rw [hstep, foldl_specStep_currentFolder rest]
        | none =>
          have hstep : specStep s (.element "h3" attrs cs) = s := by
            show visitElement s "h3" attrs cs = _
            unfold visitElement
            rw [if_pos rfl, hc]
          rw [hstep, foldl_specStep_currentFolder rest]
      · rw [if_neg h]
        have := foldl_specStep_currentFolder rest (specStep s (.element tag attrs cs))
        rw [this]
        have hcf : (specStep s (.element tag attrs cs)).currentFolder = s.currentFolder :=
          visitElement_currentFolder_ne_h3 s tag attrs cs h
        rw [hcf]

/-- The document from the claim: an outer folder `Outer`, a nested
sub-folder `Inner`, and a trailing sibling link of the outer folder placed
after the nested block closes. -/
def nestedDoc : HNode :=
  .element "dl" []
    [ .element "h3" [] [.text "Outer"],
      .element "dl" []
        [ .element "a" [("href", "http://one")] [.text "L1"],
          .element "h3" [] [.text "Inner"],
          .element "dl" [] [.element "a" [("href", "http://two")] [.text "L2"]],
          .element "a" [("href", "http://three")] [.text "L3"] ] ]

/-- C3: the folder label assigned to every emitted link equals the text of
the most recently visited `h3` heading preceding it in depth-first document
order (empty before any heading): `Parse` coincides with a flat
left-to-right pass over the preorder node sequence, the label tracked by
that pass is exactly the most-recent-heading text, and on the nested
document the trailing outer-folder sibling `L3` receives the nested label
`Inner`, not `Outer`. -/
theorem c3_folder_attribution :
    (∀ doc : HNode, Parse doc = specParse doc) ∧
    (∀ (ns : List HNode) (s : ParseState),
      (List.foldl specStep s ns).currentFolder = specLastHeading s.currentFolder ns) ∧
    Parse nestedDoc =
      [ mkParsed "L1" "http://one" "Outer",
        mkParsed "L2" "http://two" "Inner",
        mkParsed "L3" "http://three" "Inner" ] := by
  refine ⟨fun doc => ?_, foldl_specStep_currentFolder, by decide⟩
  unfold Parse specParse
  rw [traverse_eq_foldl]

theorem specStep_bookmarks_from (s : ParseState) (n : HNode) (b : Bookmark)
    (h : b ∈ (specStep s n).bookmarks) :
    b ∈ s.bookmarks ∨
    ∃ attrs children, n = HNode.element "a" attrs children ∧
      b.URL = hrefOf attrs ∧ hrefOf attrs ≠ "" ∧
      ∃ c, children.head? = some c ∧ nodeData c ≠ "" ∧ b.Title = trimSpace (nodeData c) := by
  cases n with
  | text d => exact Or.inl h
  | element tag attrs cs =>
    have hb : b ∈ (visitElement s tag attrs cs).bookmarks := h
    unfold visitElement at hb
    by_cases h3 : tag = "h3"
    · rw [if_pos h3] at hb
      cases hc : cs.head? with
      | some c => rw [hc] at hb; exact Or.inl hb
      | none => rw [hc] at hb; exact Or.inl hb
    · rw [if_neg h3] at hb
      by_cases ha : tag = "a"
      · rw [if_pos ha] at hb
        cases hc : cs.head? with
        | some c =>
          rw [hc] at hb
          dsimp only at hb
          split at hb
          · next hcond =>
            rw [List.mem_append] at hb
            cases hb with
            | inl hmem => exact Or.inl hmem
            | inr hmem =>
              rw [List.mem_singleton] at hmem
              subst hmem
              subst ha
              exact Or.inr ⟨attrs, cs, rfl, rfl, hcond.1, c, hc, hcond.2, rfl⟩
          · exact Or.inl hb
        | none =>
          rw [hc] at hb
          dsimp only at hb
          split at hb
          · next hcond => exact absurd rfl hcond.2
          · exact Or.inl hb
      · rw [if_neg ha] at hb
        exact Or.inl hb

theorem foldl_specStep_bookmarks_from : ∀ (ns : List HNode) (s : ParseState) (b : Bookmark),
    b ∈ (List.foldl specStep s ns).bookmarks →
    b ∈ s.bookmarks ∨
    ∃ attrs children, HNode.element "a" attrs children ∈ ns ∧
      b.URL = hrefOf attrs ∧ hrefOf attrs ≠ "" ∧
      ∃ c, children.head? = some c ∧ nodeData c ≠ "" ∧ b.Title = trimSpace (nodeData c)
  | [], _, _, hb => Or.inl hb
  | n :: rest, s, b, hb => by
    rw [List.foldl_cons] at hb
    cases foldl_specStep_bookmarks_from rest (specStep s n) b hb with
    | inl h =>
      cases specStep_bookmarks_from s n b h with
      | inl hmem => exact Or.inl hmem
      | inr hfrom =>
        obtain ⟨attrs, children, hn, hrest⟩ := hfrom
        exact Or.inr ⟨attrs, children, List.mem_cons.mpr (Or.inl hn.symm), hrest⟩
    | inr hfrom =>
      obtain ⟨attrs, children, hmem, hrest⟩ := hfrom
      exact Or.inr ⟨attrs, children, List.mem_cons_of_mem n hmem, hrest⟩

/-- The emission test of `parser.go` lines 77-95 as a predicate on one node:
a link element whose `href` value and raw first-child content are both
non-empty — exactly the nodes for which `Parse` appends a record. -/
def isEmittedLink : HNode → Bool
  | .element tag attrs children =>
    decide (tag = "a") && decide (hrefOf attrs ≠ "") &&
      (match children.head? with
       | some c => decide (nodeData c ≠ "")
       | none => false)
  | .text _ => false

theorem specStep_bookmarks_length (s : ParseState) (n : HNode) :
    (specStep s n).bookmarks.length =
      s.bookmarks.length + (if isEmittedLink n then 1 else 0) := by
  cases n with
  | text d => rfl
  | element tag attrs cs =>
    show (visitElement s tag attrs cs).bookmarks.length = _
    by_cases h3 : tag = "h3"
    · subst h3
      have hfalse : isEmittedLink (HNode.element "h3" attrs cs) = false := by
        rw [isEmittedLink,
          show (decide (("h3" : String) = "a")) = false from rfl,
          Bool.false_and, Bool.false_and]
      unfold visitElement
      rw [if_pos rfl, hfalse]
      cases hc : cs.head? with
      | some c => rfl
      | none => rfl
    · by_cases ha : tag = "a"
      · subst ha
        have hemit : isEmittedLink (HNode.element "a" attrs cs) =
            (decide (hrefOf attrs ≠ "") &&
              (match cs.head? with
               | some c => decide (nodeData c ≠ "")
               | none => false)) := by
          rw [isEmittedLink,
            show (decide (("a" : String) = "a")) = true from rfl, Bool.true_and]
        unfold visitElement
        rw [if_neg h3, if_pos rfl, hemit]
        dsimp only
        cases hc : cs.head? with
        | some c =>
          rw [show ((decide (hrefOf attrs ≠ "") && decide (nodeData c ≠ ""))) =
              decide (hrefOf attrs ≠ "" ∧ nodeData c ≠ "") from (Bool.decide_and _ _).symm]
          by_cases hcond : hrefOf attrs ≠ "" ∧ nodeData c ≠ ""
          · rw [if_pos hcond, decide_eq_true hcond, if_pos rfl, List.length_append]
            rfl
          · rw [if_neg hcond, decide_eq_false hcond, if_neg Bool.false_ne_true]
            rfl
        | none =>
          rw [Bool.and_false, if_neg (fun hcond => hcond.2 rfl), if_neg Bool.false_ne_true]
          rfl
      · have hfalse : isEmittedLink (HNode.element tag attrs cs) = false := by
          rw [isEmittedLink, decide_eq_false ha, Bool.false_and, Bool.false_and]
        unfold visitElement
        rw [if_neg h3, if_neg ha, hfalse]
        rfl

theorem foldl_specStep_bookmarks_length : ∀ (ns : List HNode) (s : ParseState),
    (List.foldl specStep s ns).bookmarks.length =
      s.bookmarks.length + (ns.filter isEmittedLink).length
  | [], s => by simp
  | n :: rest, s => by
    rw [List.foldl_cons, foldl_specStep_bookmarks_length rest (specStep s n),
      specStep_bookmarks_length s n, List.filter_cons]
    cases he : isEmittedLink n with
    | true =>
      rw [if_pos rfl, if_pos rfl, List.length_cons]
      omega
    | false =>
      rw [if_neg Bool.false_ne_true, if_neg Bool.false_ne_true]
      omega

/-- A link whose first child is whitespace-only text: the emission check in
`parser.go` line 89 tests the raw title before trimming, so this link is
emitted with an empty trimmed title. -/
def c7doc : HNode := .element "a" [("href", "http://x")] [.text " "]

/-- C7 (counterexample): the claim that every record emitted by Parse has
a non-empty title fails on a link whose first text content is whitespace
only — `Parse` emits it, with title trimmed to the empty string. -/
theorem c7_counterexample :
    (Parse c7doc).map Bookmark.Title = [""] ∧
    ¬ (∀ b ∈ Parse c7doc, b.Title ≠ "") := by
  constructor
  · decide
  · intro h
    exact h (mkParsed "" "http://x" "") (by decide) rfl

/-- C7 (amended): every record emitted by `Parse` comes from a link element
of the document: its url equals that element's `href` attribute value and
is non-empty, the element's raw first-child content is non-empty, and the
stored title is that raw content trimmed of surrounding whitespace (so the
trimmed title may be empty when the content is whitespace-only).  Second
conjunct: the number of emitted records equals the number of link elements
whose `href` value and first-child content are both non-empty — a link
element missing either value is silently skipped and never emitted. -/
theorem c7_amended :
    (∀ (doc : HNode) (b : Bookmark), b ∈ Parse doc →
      ∃ attrs children, HNode.element "a" attrs children ∈ preorder doc ∧
        b.URL = hrefOf attrs ∧ hrefOf attrs ≠ "" ∧
        ∃ c, children.head? = some c ∧ nodeData c ≠ "" ∧
          b.Title = trimSpace (nodeData c)) ∧
    (∀ doc : HNode, (Parse doc).length = ((preorder doc).filter isEmittedLink).length) := by
  constructor
  · intro doc b hb
    unfold Parse at hb
    rw [traverse_eq_foldl] at hb
    cases foldl_specStep_bookmarks_from (preorder doc) ⟨"", []⟩ b hb with
    | inl h => exact absurd h (List.not_mem_nil b)
    | inr h => exact h
  · intro doc
    unfold Parse
    rw [traverse_eq_foldl, foldl_specStep_bookmarks_length]
    simp

/-- A well-formed link document used to instantiate `c7_amended`. -/
def c7goodDoc : HNode := .element "a" [("href", "http://ok")] [.text " Hello "]

/-- A document with one emittable link, one link with no `href` attribute
and one link with no child: the latter two are silently skipped. -/
def c7mixedDoc : HNode :=
  .element "dl" []
    [ .element "a" [("href", "http://ok")] [.text " Hello "],
      .element "a" [] [.text "NoHref"],
      .element "a" [("href", "http://x2")] [] ]

/-- Witness for `c7_amended`: the record parsed from `c7goodDoc` traces
back to its link element with matching href and trimmed first-child
content, and on `c7mixedDoc` only the one fully-valued link of the three
is emitted. -/
theorem c7_amended_witness :
    (∃ attrs children,
      HNode.element "a" attrs children ∈ preorder c7goodDoc ∧
      (mkParsed "Hello" "http://ok" "").URL = hrefOf attrs ∧ hrefOf attrs ≠ "" ∧
      ∃ c, children.head? = some c ∧ nodeData c ≠ "" ∧
        (mkParsed "Hello" "http://ok" "").Title = trimSpace (nodeData c)) ∧
    (Parse c7mixedDoc).length = ((preorder c7mixedDoc).filter isEmittedLink).length ∧
    (Parse c7mixedDoc).length = 1 :=
  ⟨c7_amended.1 c7goodDoc (mkParsed "Hello" "http://ok" "") (by decide),
   c7_amended.2 c7mixedDoc,
   by decide⟩

/-- The HTTP response an eventually-successful probe obtains: the status
code and `resp.Request.URL.String()`, the URL of the final request the
client actually issued. -/
structure HTTPResponse where
  statusCode : Nat
  requestURL : String
deriving DecidableEq, Repr

/-- The observable outcome of one `client.Get`: the list of
`req.URL.String()` values passed to `CheckRedirect`, one per followed
redirect in order, and the response — `none` when the fetch ends in a
transport-level failure (timeout, connection refused, DNS failure, TLS
failure), possibly after some redirects were already followed. -/
structure ProbeOutcome where
  redirectHops : List String
  response : Option HTTPResponse
deriving DecidableEq, Repr

/-- The `CheckRedirect` callback of `parser.go` lines 112-118, applied once
per followed redirect: `via` always holds at least the initial request when
the callback runs, so the `len(via) >= 1` guard always passes and each call
sets `Redirect := true` and overwrites `RedirectURL` with that hop's URL. -/
def applyCheckRedirects (b : Bookmark) (hops : List String) : Bookmark :=
  hops.foldl (fun b u => { b with Redirect := true, RedirectURL := u }) b

/-- `ValidateBookmark` (`parser.go` lines 109-137) against an abstract probe
outcome: transport failure marks the bookmark dead and returns a nil error;
a status ≥ 400 marks it dead; an empty `RedirectURL` on a redirected probe
is backfilled from the final request URL.  The second component is the
returned error, `none` on every path exactly as in the source. -/
def ValidateBookmark (b : Bookmark) (o : ProbeOutcome) : Bookmark × Option String :=
  let b1 := applyCheckRedirects b o.redirectHops
  match o.response with
  | none => ({ b1 with Dead := true }, none)
  | some resp =>
    let b2 := if 400 ≤ resp.statusCode then { b1 with Dead := true } else b1
    let b3 :=
      if b2.Redirect = true ∧ b2.RedirectURL = "" then
        { b2 with RedirectURL := resp.requestURL }
      else b2
    (b3, none)

theorem applyCheckRedirects_nil (b : Bookmark) : applyCheckRedirects b [] = b := rfl

theorem applyCheckRedirects_ne_nil : ∀ (hops : List String) (b : Bookmark), hops ≠ [] →
    (applyCheckRedirects b hops).Redirect = true ∧
    (applyCheckRedirects b hops).RedirectURL ∈ hops ∧
    some (applyCheckRedirects b hops).RedirectURL = hops.getLast? ∧
    (applyCheckRedirects b hops).Dead = b.Dead
  | [], _, h => absurd rfl h
  | [u], b, _ => by
    refine ⟨rfl, ?_, rfl, rfl⟩
    exact List.mem_singleton.mpr rfl
  | u :: v :: rest, b, _ => by
    have ih := applyCheckRedirects_ne_nil (v :: rest)
      { b with Redirect := true, RedirectURL := u } (by simp)
    have hfold : applyCheckRedirects b (u :: v :: rest) =
        applyCheckRedirects { b with Redirect := true, RedirectURL := u } (v :: rest) := rfl
    rw [hfold]
    refine ⟨ih.1, List.mem_cons_of_mem u ih.2.1, ?_, ih.2.2.2⟩
    rw [ih.2.2.1, List.getLast?_cons_cons]

/-- C4: `ValidateBookmark` returns a nil error on every probe; a transport
failure (no response obtained) marks the bookmark dead, and an obtained
response with status ≥ 400 also marks it dead.  A probe failure is thus a
classification outcome, never an error surfaced to the engine. -/
theorem c4_probe_failure_is_classification :
    ∀ (b : Bookmark) (o : ProbeOutcome),
      (ValidateBookmark b o).2 = none ∧
      (o.response = none → (ValidateBookmark b o).1.Dead = true) ∧
      (∀ resp, o.response = some resp → 400 ≤ resp.statusCode →
        (ValidateBookmark b o).1.Dead = true) := by
  intro b o
  refine ⟨?_, ?_, ?_⟩
  · unfold ValidateBookmark
    cases o.response with
    | none => rfl
    | some resp => rfl
  · intro hnone
    unfold ValidateBookmark
    rw [hnone]
  · intro resp hresp hstat
    unfold ValidateBookmark
    rw [hresp]
    dsimp only
    rw [if_pos hstat]
    split
    · rfl
    · rfl

/-- Witness for `c4_probe_failure_is_classification`: a timed-out probe and
a 404 response on a fresh bookmark both come back dead with a nil error. -/
theorem c4_witness :
    (ValidateBookmark (mkParsed "t" "http://a" "") ⟨[], none⟩).1.Dead = true ∧
    (ValidateBookmark (mkParsed "t" "http://a" "") ⟨[], some ⟨404, "http://a"⟩⟩).1.Dead = true ∧
    (ValidateBookmark (mkParsed "t" "http://a" "") ⟨[], none⟩).2 = none :=
  ⟨(c4_probe_failure_is_classification (mkParsed "t" "http://a" "") ⟨[], none⟩).2.1 rfl,
   (c4_probe_failure_is_classification (mkParsed "t" "http://a" "") ⟨[], some ⟨404, "http://a"⟩⟩).2.2
     ⟨404, "http://a"⟩ rfl (by decide),
   (c4_probe_failure_is_classification (mkParsed "t" "http://a" "") ⟨[], none⟩).1⟩

/-- C5: for a probe that obtains a response, starting from a fresh bookmark
(no redirect state), `Redirect` ends up true exactly when at least one
redirect was followed, and in that case `RedirectURL` is the final resolved
URL (the URL of the last request issued) and is non-empty.  The
well-formedness facts assumed of the transport are that every followed
request URL is a non-empty string and that the response's final request URL
is the last redirect target. -/
theorem c5_redirect_capture :
    ∀ (b : Bookmark) (o : ProbeOutcome) (resp : HTTPResponse),
      b.Redirect = false → b.RedirectURL = "" →
      o.response = some resp →
      (∀ u ∈ o.redirectHops, u ≠ "") →
      (o.redirectHops ≠ [] → o.redirectHops.getLast? = some resp.requestURL) →
      ((ValidateBookmark b o).1.Redirect = true ↔ o.redirectHops ≠ []) ∧
      ((ValidateBookmark b o).1.Redirect = true →
        (ValidateBookmark b o).1.RedirectURL = resp.requestURL ∧
        (ValidateBookmark b o).1.RedirectURL ≠ "") := by
  intro b o resp hfr hfu hresp hne hlast
  unfold ValidateBookmark
  rw [hresp]
  dsimp only
  by_cases hhops : o.redirectHops = []
  · rw [hhops, applyCheckRedirects_nil]
    by_cases hs : 400 ≤ resp.statusCode
    · rw [if_pos hs, if_neg (fun hc => Bool.false_ne_true (hfr.symm.trans hc.1))]
      exact ⟨⟨fun hred => absurd (hfr.symm.trans hred) Bool.false_ne_true,
              fun hc => absurd rfl hc⟩,
             fun hred => absurd (hfr.symm.trans hred) Bool.false_ne_true⟩
    · rw [if_neg hs, if_neg (fun hc => Bool.false_ne_true (hfr.symm.trans hc.1))]
      exact ⟨⟨fun hred => absurd (hfr.symm.trans hred) Bool.false_ne_true,
              fun hc => absurd rfl hc⟩,
             fun hred => absurd (hfr.symm.trans hred) Bool.false_ne_true⟩
  · obtain ⟨hred, hmem, hlasteq, _⟩ := applyCheckRedirects_ne_nil o.redirectHops b hhops
    have hreq : (applyCheckRedirects b o.redirectHops).RedirectURL = resp.requestURL := by
      have h1 := hlast hhops
      rw [h1] at hlasteq
      exact Option.some_injective _ hlasteq
    have hneur : (applyCheckRedirects b o.redirectHops).RedirectURL ≠ "" :=
      hne _ hmem
    by_cases hs : 400 ≤ resp.statusCode
    · rw [if_pos hs, if_neg (fun hc => hneur hc.2)]
      exact ⟨⟨fun _ => hhops, fun _ => hred⟩, fun _ => ⟨hreq, hneur⟩⟩
    · rw [if_neg hs, if_neg (fun hc => hneur hc.2)]
      exact ⟨⟨fun _ => hhops, fun _ => hred⟩, fun _ => ⟨hreq, hneur⟩⟩

/-- Witness for `c5_redirect_capture`: a fresh bookmark probed through one
301 hop to `http://final` ends with `redirect=true` and the final URL. -/
theorem c5_witness :
    ((ValidateBookmark (mkParsed "t" "http://a" "")
        ⟨["http://final"], some ⟨200, "http://final"⟩⟩).1.Redirect = true ↔
      (["http://final"] : List String) ≠ []) ∧
    ((ValidateBookmark (mkParsed "t" "http://a" "")
        ⟨["http://final"], some ⟨200, "http://final"⟩⟩).1.Redirect = true →
      (ValidateBookmark (mkParsed "t" "http://a" "")
        ⟨["http://final"], some ⟨200, "http://final"⟩⟩).1.RedirectURL = "http://final" ∧
      (ValidateBookmark (mkParsed "t" "http://a" "")
        ⟨["http://final"], some ⟨200, "http://final"⟩⟩).1.RedirectURL ≠ "") :=
  c5_redirect_capture (mkParsed "t" "http://a" "")
    ⟨["http://final"], some ⟨200, "http://final"⟩⟩ ⟨200, "http://final"⟩
    rfl rfl rfl (by decide) (fun _ => rfl)

/-- A row of the `bookmarks` table (`parser.go` lines 30-43): `duplicate_of`
is nullable, `redirect_url` defaults to empty, status flags default false. -/
structure Row where
  id : Nat
  title : String
  url : String
  folder : String
  isDead : Bool
  isRedirect : Bool
  redirectURL : String
  isDuplicate : Bool
  duplicateOf : Option Nat
deriving DecidableEq, Repr

/-- Outcome of the per-record duplicate lookup
`tx.QueryRow("SELECT id FROM bookmarks WHERE url = ?").Scan`: a matching id,
`sql.ErrNoRows`, or a genuine store failure.  The source only ever tests
`err == nil`, so the two error outcomes are indistinguishable to it. -/
inductive LookupOutcome where
  | found (id : Nat)
  | noRows
  | storeErr
deriving DecidableEq, Repr

/-- Failure environment for one `SaveBookmarks` call: whether `db.Begin`,
`tx.Prepare`, the k-th `stmt.Exec` insert and `tx.Commit` succeed, and what
each exact-URL lookup returns. -/
structure ImportEnv where
  beginOk : Bool
  lookup : String → LookupOutcome
  prepareOk : Bool
  insertOk : Nat → Bool
  commitOk : Bool

/-- Insert-or-replace on the association list modelling the Go
`urlMap map[string]int64`. -/
def insertOrReplace (m : List (String × Nat)) (u : String) (i : Nat) : List (String × Nat) :=
  match m with
  | [] => [(u, i)]
  | (k, v) :: rest => if k = u then (u, i) :: rest else (k, v) :: insertOrReplace rest u i

/-- Go map lookup on the association list. -/
def assocFind (m : List (String × Nat)) (u : String) : Option Nat :=
  match m.find? (fun p => p.1 = u) with
  | some p => some p.2
  | none => none

/-- The duplicate-check loop of `parser.go` lines 147-154: one lookup per
batch record, recording `urlMap[url] = existingID` only when the lookup
returned without error — a lookup error of any kind is silently skipped. -/
def buildUrlMap (env : ImportEnv) (batch : List Bookmark) : List (String × Nat) :=
  batch.foldl
    (fun m b =>
      match env.lookup b.URL with
      | .found i => insertOrReplace m b.URL i
      | _ => m)
    []

/-- The row a successful insert produces (`parser.go` lines 166-171 plus the
schema defaults): id store-assigned, status fields at their defaults. -/
def mkRow (nid : Nat) (b : Bookmark) (dup : Bool) (dupOf : Option Nat) : Row :=
  ⟨nid, b.Title, b.URL, b.Folder, false, false, "", dup, dupOf⟩

/-- The insert loop and final commit of `parser.go` lines 166-178: each
record is inserted unconditionally, flagged duplicate-of the `urlMap` hit
when one exists; a failing insert rolls the transaction back (the caller's
store is returned unchanged), as does a failing commit. -/
def insertLoop (env : ImportEnv) (urlMap : List (String × Nat)) (orig cur : List Row)
    (nid k : Nat) : List Bookmark → Option String × List Row
  | [] => if env.commitOk then (none, cur) else (some "commit error", orig)
  | b :: rest =>
    if env.insertOk k then
      let row :=
        match assocFind urlMap b.URL with
        | some dupId => mkRow nid b true (some dupId)
        | none => mkRow nid b false none
      insertLoop env urlMap orig (cur ++ [row]) (nid + 1) (k + 1) rest
    else (some "insert error", orig)

/-- `SaveBookmarks` (`parser.go` lines 140-179) against a store modelled as
the ordered list of committed rows; `nid` is the next auto-increment id.
Returns the error (if any) and the store as left after the call — on any
rolled-back path the original store. -/
def SaveBookmarks (env : ImportEnv) (store : List Row) (nid : Nat)
    (batch : List Bookmark) : Option String × List Row :=
  if env.beginOk then
    let urlMap := buildUrlMap env batch
    if env.prepareOk then
      insertLoop env urlMap store store nid 0 batch
    else (some "prepare error", store)
  else (some "begin error", store)

/-- The store's true answer to an exact-URL lookup: the id of the first row
carrying that url, or no-rows. -/
def honestLookup (store : List Row) : String → LookupOutcome :=
  fun u =>
    match store.find? (fun r => r.url = u) with
    | some r => .found r.id
    | none => .noRows

/-- A failure-free environment whose lookups answer from the given store. -/
def honestEnv (store : List Row) : ImportEnv :=
  ⟨true, honestLookup store, true, fun _ => true, true⟩

/-- Spec-side description of the row inserted for one batch record: flagged
duplicate-of the first matching row of the pre-batch store exactly when the
url already occurs there. -/
def specInsertedRow (store : List Row) (nid : Nat) (b : Bookmark) : Row :=
  match store.find? (fun r => r.url = b.URL) with
  | some r => mkRow nid b true (some r.id)
  | none => mkRow nid b false none

/-- Spec-side description of the whole batch's inserted rows, ids assigned
consecutively from `nid`, each judged against the frozen pre-batch store. -/
def specRowsFrom (store : List Row) (nid : Nat) : List Bookmark → List Row
  | [] => []
  | b :: rest => specInsertedRow store nid b :: specRowsFrom store (nid + 1) rest

theorem assocFind_cons (x : String × Nat) (m : List (String × Nat)) (u : String) :
    assocFind (x :: m) u = if x.1 = u then some x.2 else assocFind m u := by
  unfold assocFind
  by_cases h : x.1 = u
  · rw [List.find?_cons_of_pos _ (by simpa using h), if_pos h]
  · rw [List.find?_cons_of_neg _ (by simpa using h), if_neg h]

theorem assocFind_insertOrReplace_self (m : List (String × Nat)) (u : String) (i : Nat) :
    assocFind (insertOrReplace m u i) u = some i := by
  induction m with
  | nil =>
    rw [insertOrReplace, assocFind_cons, if_pos rfl]
  | cons p rest ih =>
    obtain ⟨k, v⟩ := p
    unfold insertOrReplace
    by_cases hk : k = u
    · rw [if_pos hk, assocFind_cons, if_pos rfl]
    · rw [if_neg hk, assocFind_cons, if_neg hk]
      exact ih

theorem assocFind_insertOrReplace_ne (m : List (String × Nat)) (u v : String) (i : Nat)
    (h : v ≠ u) : assocFind (insertOrReplace m u i) v = assocFind m v := by
  induction m with
  | nil =>
    rw [insertOrReplace, assocFind_cons, if_neg (fun he => h he.symm)]
  | cons p rest ih =>
    obtain ⟨k, w⟩ := p
    unfold insertOrReplace
    by_cases hk : k = u
    · rw [if_pos hk, assocFind_cons, assocFind_cons, if_neg (fun he => h he.symm),
        if_neg (fun hkv => h (hk.symm.trans hkv).symm)]
    · rw [if_neg hk, assocFind_cons, assocFind_cons]
      by_cases hkv : k = v
      · rw [if_pos hkv, if_pos hkv]
      · rw [if_neg hkv, if_neg hkv]
        exact ih

theorem buildUrlMap_find : ∀ (env : ImportEnv) (batch : List Bookmark)
    (m : List (String × Nat)) (u : String),
    assocFind
      (batch.foldl
        (fun m b =>
          match env.lookup b.URL with
          | .found i => insertOrReplace m b.URL i
          | _ => m)
        m) u =
      if u ∈ batch.map Bookmark.URL then
        match env.lookup u with
        | .found i => some i
        | _ => assocFind m u
      else assocFind m u
  | env, [], m, u => by simp
  | env, b :: rest, m, u => by
    rw [List.foldl_cons, buildUrlMap_find env rest _ u]
    by_cases hu : u ∈ (b :: rest).map Bookmark.URL
    · rw [if_pos hu]
      by_cases hur : u ∈ rest.map Bookmark.URL
      · rw [if_pos hur]
        cases henv : env.lookup u with
        | found i => rfl
        | noRows =>
          dsimp only
          by_cases hbu : b.URL = u
          · rw [hbu, henv]
          · cases henvb : env.lookup b.URL with
            | found j =>
              exact assocFind_insertOrReplace_ne m b.URL u j (fun he => hbu he.symm)
            | noRows => rfl
            | storeErr => rfl
        | storeErr =>
          dsimp only
          by_cases hbu : b.URL = u
          · rw [hbu, henv]
          · cases henvb : env.lookup b.URL with
            | found j =>
              exact assocFind_insertOrReplace_ne m b.URL u j (fun he => hbu he.symm)
            | noRows => rfl
            | storeErr => rfl
      · rw [if_neg hur]
        have hbu : b.URL = u := by
          rcases List.mem_map.mp hu with ⟨b', hb', he⟩
          cases List.mem_cons.mp hb' with
          | inl h => rw [h] at he; exact he
          | inr h => exact absurd (List.mem_map.mpr ⟨b', h, he⟩) hur
        rw [hbu]
        cases henv : env.lookup u with
        | found i => exact assocFind_insertOrReplace_self m u i
        | noRows => rfl
        | storeErr => rfl
    · rw [if_neg hu]
      rw [List.map_cons, List.mem_cons] at hu
      push_neg at hu
      obtain ⟨hbne, hur⟩ := hu
      rw [if_neg hur]
      cases henv : env.lookup b.URL with
      | found i => exact assocFind_insertOrReplace_ne m b.URL u i hbne
      | noRows => rfl
      | storeErr => rfl

theorem insertLoop_honest (store : List Row) :
    ∀ (batch : List Bookmark) (urlMap : List (String × Nat)) (orig cur : List Row) (nid k : Nat),
    (∀ b ∈ batch, assocFind urlMap b.URL = (store.find? (fun r => r.url = b.URL)).map Row.id) →
    insertLoop (honestEnv store) urlMap orig cur nid k batch =
      (none, cur ++ specRowsFrom store nid batch)
  | [], urlMap, orig, cur, nid, k, _ => by
    rw [insertLoop, specRowsFrom, if_pos (show (honestEnv store).commitOk = true from rfl),
      List.append_nil]
  | b :: rest, urlMap, orig, cur, nid, k, h => by
    rw [insertLoop, if_pos (show (honestEnv store).insertOk k = true from rfl)]
    dsimp only
    have hb := h b (List.mem_cons_self b rest)
    have hrest : ∀ b' ∈ rest,
        assocFind urlMap b'.URL = (store.find? (fun r => r.url = b'.URL)).map Row.id :=
      fun b' hb' => h b' (List.mem_cons_of_mem b hb')
    rw [specRowsFrom]
    cases hf : store.find? (fun r => r.url = b.URL) with
    | some r =>
      rw [hf] at hb
      rw [hb]
      rw [insertLoop_honest store rest urlMap orig _ (nid + 1) (k + 1) hrest]
      rw [specInsertedRow, hf, List.append_assoc]
      rfl
    | none =>
      rw [hf] at hb
      rw [hb]
      rw [insertLoop_honest store rest urlMap orig _ (nid + 1) (k + 1) hrest]
      rw [specInsertedRow, hf, List.append_assoc]
      rfl

/-- C2: under a failure-free store, `SaveBookmarks` inserts every batch
record unconditionally; the inserted row is flagged `duplicate=true` with
`duplicateOf` the id of the first store row carrying the same url exactly
when such a row existed before the batch began (the lookup snapshot is
taken before any insert), as `specRowsFrom` states.  In particular — the
second conjunct — two same-url records new to the store in one batch are
both inserted as non-duplicate originals. -/
theorem c2_duplicate_snapshot :
    (∀ (store : List Row) (nid : Nat) (batch : List Bookmark),
      SaveBookmarks (honestEnv store) store nid batch =
        (none, store ++ specRowsFrom store nid batch)) ∧
    SaveBookmarks (honestEnv []) [] 1
        [mkParsed "T1" "http://a" "", mkParsed "T2" "http://a" ""] =
      (none,
        [⟨1, "T1", "http://a", "", false, false, "", false, none⟩,
         ⟨2, "T2", "http://a", "", false, false, "", false, none⟩]) := by
  constructor
  · intro store nid batch
    rw [SaveBookmarks, if_pos (show (honestEnv store).beginOk = true from rfl)]
    dsimp only
    rw [if_pos (show (honestEnv store).prepareOk = true from rfl)]
    apply insertLoop_honest
    intro b _
    show assocFind (buildUrlMap (honestEnv store) batch) b.URL = _
    rw [buildUrlMap, buildUrlMap_find (honestEnv store) batch [] b.URL,
      if_pos (List.mem_map.mpr ⟨b, ‹b ∈ batch›, rfl⟩)]
    cases hf : store.find? (fun r => r.url = b.URL) with
    | some r =>
      have hl : (honestEnv store).lookup b.URL = LookupOutcome.found r.id := by
        show honestLookup store b.URL = _
        unfold honestLookup
        rw [hf]
      rw [hl]
      rfl
    | none =>
      have hl : (honestEnv store).lookup b.URL = LookupOutcome.noRows := by
        show honestLookup store b.URL = _
        unfold honestLookup
        rw [hf]
      rw [hl]
      rfl
  · decide

theorem insertLoop_error_rollback :
    ∀ (batch : List Bookmark) (env : ImportEnv) (urlMap : List (String × Nat))
      (orig cur : List Row) (nid k : Nat),
    (insertLoop env urlMap orig cur nid k batch).1.isSome = true →
    (insertLoop env urlMap orig cur nid k batch).2 = orig
  | [], env, urlMap, orig, cur, nid, k, h => by
    rw [insertLoop] at h ⊢
    by_cases hc : env.commitOk = true
    · rw [if_pos hc] at h
      simp at h
    · rw [if_neg hc]
  | b :: rest, env, urlMap, orig, cur, nid, k, h => by
    rw [insertLoop] at h ⊢
    by_cases hi : env.insertOk k = true
    · rw [if_pos hi] at h ⊢
      exact insertLoop_error_rollback rest env urlMap orig _ (nid + 1) (k + 1) h
    · rw [if_neg hi]

theorem insertLoop_insert_fail :
    ∀ (batch : List Bookmark) (env : ImportEnv) (urlMap : List (String × Nat))
      (orig cur : List Row) (nid k : Nat),
    (∃ j, j < batch.length ∧ env.insertOk (k + j) = false) →
    (insertLoop env urlMap orig cur nid k batch).1.isSome = true
  | [], _, _, _, _, _, _, h => by
    obtain ⟨j, hj, _⟩ := h
    exact absurd hj (Nat.not_lt_zero j)
  | b :: rest, env, urlMap, orig, cur, nid, k, h => by
    rw [insertLoop]
    by_cases hi : env.insertOk k = true
    · rw [if_pos hi]
      obtain ⟨j, hj, hfail⟩ := h
      cases j with
      | zero => rw [Nat.add_zero] at hfail; rw [hfail] at hi; exact absurd hi (by decide)
      | succ j' =>
        refine insertLoop_insert_fail rest env urlMap orig _ (nid + 1) (k + 1) ⟨j', ?_, ?_⟩
        · exact Nat.lt_of_succ_lt_succ hj
        · have harith : k + 1 + j' = k + (j' + 1) := by omega
          rw [harith]
          exact hfail
    · rw [if_neg hi]
      rfl

theorem insertLoop_commit_fail :
    ∀ (batch : List Bookmark) (env : ImportEnv) (urlMap : List (String × Nat))
      (orig cur : List Row) (nid k : Nat),
    env.commitOk = false →
    (insertLoop env urlMap orig cur nid k batch).1.isSome = true
  | [], env, urlMap, orig, cur, nid, k, h => by
    rw [insertLoop, if_neg (by rw [h]; exact Bool.false_ne_true)]
    rfl
  | b :: rest, env, urlMap, orig, cur, nid, k, h => by
    rw [insertLoop]
    by_cases hi : env.insertOk k = true
    · rw [if_pos hi]
      exact insertLoop_commit_fail rest env urlMap orig _ (nid + 1) (k + 1) h
    · rw [if_neg hi]
      rfl

/-- C8 (amended): during import, every store failure at `db.Begin`,
`tx.Prepare`, any insert `stmt.Exec`, or `tx.Commit` aborts the operation
with an error, and whenever `SaveBookmarks` reports an error the store is
left exactly as it was (full rollback, nothing partially applied).  The
one exception — forced by the counterexample — is the exact-URL duplicate
lookup: its failure is silently swallowed (`parser.go` line 151 only tests
`err == nil`), the record is treated as having no pre-existing duplicate,
and the import proceeds and commits. -/
theorem c8_amended :
    ∀ (env : ImportEnv) (store : List Row) (nid : Nat) (batch : List Bookmark),
    ((SaveBookmarks env store nid batch).1.isSome = true →
      (SaveBookmarks env store nid batch).2 = store) ∧
    ((env.beginOk = false ∨ env.prepareOk = false ∨
      (∃ k, k < batch.length ∧ env.insertOk k = false) ∨ env.commitOk = false) →
      (SaveBookmarks env store nid batch).1.isSome = true) := by
  intro env store nid batch
  rw [SaveBookmarks]
  by_cases hb : env.beginOk = true
  · rw [if_pos hb]
    dsimp only
    by_cases hp : env.prepareOk = true
    · rw [if_pos hp]
      constructor
      · exact insertLoop_error_rollback batch env _ store store nid 0
      · intro hdisj
        rcases hdisj with h | h | h | h
        · rw [hb] at h; exact absurd h (by decide)
        · rw [hp] at h; exact absurd h (by decide)
        · obtain ⟨k, hk, hfail⟩ := h
          exact insertLoop_insert_fail batch env _ store store nid 0
            ⟨k, hk, by rw [Nat.zero_add]; exact hfail⟩
        · exact insertLoop_commit_fail batch env _ store store nid 0 h
    · rw [if_neg hp]
      exact ⟨fun _ => rfl, fun _ => rfl⟩
  · rw [if_neg hb]
    exact ⟨fun _ => rfl, fun _ => rfl⟩

/-- An environment whose commit fails, used to instantiate `c8_amended`. -/
def commitFailEnv : ImportEnv := ⟨true, fun _ => .noRows, true, fun _ => true, false⟩

/-- Witness for `c8_amended`: a failing commit aborts the import and leaves
the (empty) store unchanged. -/
theorem c8_amended_witness :
    (SaveBookmarks commitFailEnv [] 1 [mkParsed "T" "http://w" ""]).1.isSome = true ∧
    (SaveBookmarks commitFailEnv [] 1 [mkParsed "T" "http://w" ""]).2 = [] := by
  have h := c8_amended commitFailEnv [] 1 [mkParsed "T" "http://w" ""]
  have hsome := h.2 (Or.inr (Or.inr (Or.inr rfl)))
  exact ⟨hsome, h.1 hsome⟩

/-- An environment in which every exact-URL duplicate lookup fails with a
genuine store error while everything else succeeds. -/
def lookupFailEnv : ImportEnv := ⟨true, fun _ => .storeErr, true, fun _ => true, true⟩

/-- A pre-existing row with the same url as the incoming record. -/
def c8row : Row := ⟨1, "T1", "http://a", "", false, false, "", false, none⟩

/-- C8 (counterexample): with the pre-existing row `c8row` sharing the
incoming record's url, a store failure on the exact-URL duplicate lookup
does NOT abort the import — `SaveBookmarks` returns no error, commits, and
inserts the record as a non-duplicate original even though a matching row
existed, contradicting the claim that such a lookup failure aborts the
operation and that no store failure is silently ignored. -/
theorem c8_counterexample :
    c8row.url = (mkParsed "T2" "http://a" "").URL ∧
    (SaveBookmarks lookupFailEnv [c8row] 2 [mkParsed "T2" "http://a" ""]).1 = none ∧
    (SaveBookmarks lookupFailEnv [c8row] 2 [mkParsed "T2" "http://a" ""]).2 =
      [c8row, ⟨2, "T2", "http://a", "", false, false, "", false, none⟩] := by
  refine ⟨rfl, ?_, ?_⟩ <;> decide

/-- The `validationResult` record of `parser.go` lines 197-203: the probe's
classification for one row, or a row-scan error sent by the producer. -/
structure VResult where
  id : Nat
  dead : Bool
  redirect : Bool
  redirectURL : String
  err : Option String
deriving DecidableEq, Repr

/-- The four report counters of `parser.go` lines 250-255. -/
structure VStats where
  total : Nat
  dead : Nat
  redirects : Nat
  valid : Nat
deriving DecidableEq, Repr

/-- The prepared update of `parser.go` line 243: overwrite the three status
columns of the row whose id matches the result. -/
def updateStatus (store : List Row) (res : VResult) : List Row :=
  store.map fun row =>
    if row.id = res.id then
      { row with isDead := res.dead, isRedirect := res.redirect, redirectURL := res.redirectURL }
    else row

/-- The statistics update of `parser.go` lines 267-275. -/
def bumpStats (st : VStats) (r : VResult) : VStats :=
  let st := { st with total := st.total + 1 }
  if r.dead then { st with dead := st.dead + 1 }
  else if r.redirect then { st with redirects := st.redirects + 1 }
  else { st with valid := st.valid + 1 }

/-- The consumer loop of `parser.go` lines 257-276 over the drained result
sequence, acting on the in-transaction store view: the first result carrying
an error aborts; otherwise each result's status update is applied and the
counters bumped; exhausting the results commits the view. -/
def consumeResults (tx : List Row) (st : VStats) :
    List VResult → Except String (List Row × VStats)
  | [] => .ok (tx, st)
  | r :: rest =>
    match r.err with
    | some e => .error e
    | none => consumeResults (updateStatus tx r) (bumpStats st r) rest

/-- `ValidateAndUpdateBookmarks` (`parser.go` lines 182-303) against the
drained result sequence: on the error path the deferred `tx.Rollback` keeps
the store as it was, no report is written and the error is returned; on
success the transaction commits and the report (its counters) is written.
Components: the store after the call, the written report, the error. -/
def ValidateAndUpdateBookmarks (store : List Row) (results : List VResult) :
    List Row × Option VStats × Option String :=
  match consumeResults store ⟨0, 0, 0, 0⟩ results with
  | .ok (s, st) => (s, some st, none)
  | .error e => (store, none, some e)

theorem consumeResults_err : ∀ (results : List VResult) (tx : List Row) (st : VStats),
    (∃ r ∈ results, r.err.isSome = true) →
    ∃ e, consumeResults tx st results = .error e
  | [], _, _, h => by
    obtain ⟨r, hmem, _⟩ := h
    exact absurd hmem (List.not_mem_nil r)
  | r :: rest, tx, st, h => by
    rw [consumeResults]
    cases hre : r.err with
    | some e => exact ⟨e, rfl⟩
    | none =>
      obtain ⟨r', hmem, herr⟩ := h
      cases List.mem_cons.mp hmem with
      | inl heq =>
        rw [heq, hre] at herr
        exact absurd herr (by decide)
      | inr hmem' =>
        exact consumeResults_err rest (updateStatus tx r) (bumpStats st r) ⟨r', hmem', herr⟩

/-- C1: if any drained result of a validation run carries a row-scan error,
the run aborts with an error, every status update already applied inside
the transaction is rolled back — the store is exactly as before the run —
and no report is written. -/
theorem c1_scan_error_aborts :
    ∀ (store : List Row) (results : List VResult),
    (∃ r ∈ results, r.err.isSome = true) →
    (ValidateAndUpdateBookmarks store results).1 = store ∧
    (ValidateAndUpdateBookmarks store results).2.1 = none ∧
    (ValidateAndUpdateBookmarks store results).2.2.isSome = true := by
  intro store results h
  obtain ⟨e, heq⟩ := consumeResults_err results store ⟨0, 0, 0, 0⟩ h
  rw [ValidateAndUpdateBookmarks, heq]
  exact ⟨rfl, rfl, rfl⟩

/-- Witness for `c1_scan_error_aborts`: one good result followed by a scan
error leaves a one-row store untouched and reportless. -/
theorem c1_witness :
    (ValidateAndUpdateBookmarks
      [⟨7, "t", "http://u", "f", false, false, "", false, none⟩]
      [⟨7, true, false, "", none⟩, ⟨0, false, false, "", some "scan error"⟩]).1 =
      [⟨7, "t", "http://u", "f", false, false, "", false, none⟩] ∧
    (ValidateAndUpdateBookmarks
      [⟨7, "t", "http://u", "f", false, false, "", false, none⟩]
      [⟨7, true, false, "", none⟩, ⟨0, false, false, "", some "scan error"⟩]).2.1 = none ∧
    (ValidateAndUpdateBookmarks
      [⟨7, "t", "http://u", "f", false, false, "", false, none⟩]
      [⟨7, true, false, "", none⟩, ⟨0, false, false, "", some "scan error"⟩]).2.2.isSome = true :=
  c1_scan_error_aborts
    [⟨7, "t", "http://u", "f", false, false, "", false, none⟩]
    [⟨7, true, false, "", none⟩, ⟨0, false, false, "", some "scan error"⟩]
    ⟨⟨0, false, false, "", some "scan error"⟩, by decide, rfl⟩

/-- The frame relation of one validation run: the final row keeps the
original's id, title, url, folder and duplicate fields, and a row whose id
is hit by no result is entirely unchanged. -/
def frameEq (ids : List Nat) (orig fin : Row) : Prop :=
  fin.id = orig.id ∧ fin.title = orig.title ∧ fin.url = orig.url ∧
  fin.folder = orig.folder ∧ fin.isDuplicate = orig.isDuplicate ∧
  fin.duplicateOf = orig.duplicateOf ∧ (orig.id ∉ ids → fin = orig)

theorem frameEq_refl (ids : List Nat) (r : Row) : frameEq ids r r :=
  ⟨rfl, rfl, rfl, rfl, rfl, rfl, fun _ => rfl⟩

theorem frameEq_updateStatus (ids : List Nat) (res : VResult) (hres : res.id ∈ ids) :
    ∀ (store tx : List Row), List.Forall₂ (frameEq ids) store tx →
    List.Forall₂ (frameEq ids) store (updateStatus tx res)
  | [], [], _ => List.Forall₂.nil
  | o :: store', t :: tx', h => by
    cases h with
    | cons hot hrest =>
      rw [updateStatus, List.map_cons]
      refine List.Forall₂.cons ?_ (frameEq_updateStatus ids res hres store' tx' hrest)
      by_cases hid : t.id = res.id
      · rw [if_pos hid]
        obtain ⟨h1, h2, h3, h4, h5, h6, h7⟩ := hot
        refine ⟨h1, h2, h3, h4, h5, h6, fun hout => ?_⟩
        exfalso
        exact hout (h1 ▸ hid ▸ hres)
      · rw [if_neg hid]
        exact hot

theorem consumeResults_ok_frame (ids : List Nat) :
    ∀ (results : List VResult) (store tx : List Row) (st : VStats),
    (∀ r ∈ results, r.id ∈ ids) →
    List.Forall₂ (frameEq ids) store tx →
    ∀ (s' : List Row) (st' : VStats), consumeResults tx st results = .ok (s', st') →
    List.Forall₂ (frameEq ids) store s'
  | [], store, tx, st, _, hf, s', st', hok => by
    rw [consumeResults] at hok
    cases hok
    exact hf
  | r :: rest, store, tx, st, hmem, hf, s', st', hok => by
    rw [consumeResults] at hok
    cases hre : r.err with
    | some e => rw [hre] at hok; exact absurd hok (by simp)
    | none =>
      rw [hre] at hok
      exact consumeResults_ok_frame ids rest store (updateStatus tx r) (bumpStats st r)
        (fun r' hr' => hmem r' (List.mem_cons_of_mem r hr'))
        (frameEq_updateStatus ids r (hmem r (List.mem_cons_self r rest)) store tx hf)
        s' st' hok

/-- C10: a validation run mutates, for each processed result, only the
`is_dead`, `is_redirect` and `redirect_url` fields of the row whose id
matches that result; every row keeps its id, title, url, folder,
`is_duplicate` and `duplicate_of`, and a row matched by no result is
entirely unchanged.  Quantifying over all stores covers re-validation runs,
which therefore overwrite only the same three status fields. -/
theorem c10_status_only_frame :
    ∀ (store : List Row) (results : List VResult),
    List.Forall₂ (frameEq (results.map VResult.id)) store
      (ValidateAndUpdateBookmarks store results).1 := by
  intro store results
  rw [ValidateAndUpdateBookmarks]
  cases hc : consumeResults store ⟨0, 0, 0, 0⟩ results with
  | ok p =>
    obtain ⟨s', st'⟩ := p
    exact consumeResults_ok_frame (results.map VResult.id) results store store ⟨0, 0, 0, 0⟩
      (fun r hr => List.mem_map.mpr ⟨r, hr, rfl⟩)
      (List.forall₂_same.mpr fun r _ => frameEq_refl _ r)
      s' st' hc
  | error e =>
    exact List.forall₂_same.mpr fun r _ => frameEq_refl _ r

/-- Witness for `c10_status_only_frame` at a concrete run: a two-row store
with one result hitting row 1. -/
theorem c10_witness :
    List.Forall₂
      (frameEq (List.map VResult.id [⟨1, true, false, "", none⟩]))
      [⟨1, "a", "http://a", "", false, false, "", false, none⟩,
       ⟨2, "b", "http://b", "", false, false, "", false, none⟩]
      (ValidateAndUpdateBookmarks
        [⟨1, "a", "http://a", "", false, false, "", false, none⟩,
         ⟨2, "b", "http://b", "", false, false, "", false, none⟩]
        [⟨1, true, false, "", none⟩]).1 :=
  c10_status_only_frame
    [⟨1, "a", "http://a", "", false, false, "", false, none⟩,
     ⟨2, "b", "http://b", "", false, false, "", false, none⟩]
    [⟨1, true, false, "", none⟩]

/-- State of the producer / worker-pool / results-channel system of
`parser.go` lines 196-240 for a run whose row scans all succeed: the rows
the producer has not yet read, the results of launched probe tasks that
have not yet been sent, the free worker slots, whether the producer has
closed the channel, the results the consumer has received (in order), and
whether a worker panicked by sending on the closed channel. -/
structure EngState where
  pending : List (Nat × String)
  inFlight : List VResult
  freeSlots : Nat
  closed : Bool
  delivered : List VResult
  panicked : Bool
deriving DecidableEq, Repr

/-- One interleaving step of the Go run.  `launch`: the producer scans the
next row, blocks until a pool slot is free, spawns the probe task and
immediately moves on (lines 216-239).  `deliver`: an in-flight task sends
its result; the channel is unbuffered, so send and receive are one
rendezvous, after which the slot is released (lines 226-238 and 257).
`closeChan`: the producer's row loop has ended, so `defer close(results)`
fires — regardless of tasks still in flight (lines 214-215, 239-240).
`sendOnClosed`: an in-flight task sends after the close, a Go runtime
panic. -/
inductive EngStep (probe : Nat × String → VResult) : EngState → EngState → Prop where
  | launch : ∀ (row : Nat × String) (rest : List (Nat × String)) (s : EngState),
      s.pending = row :: rest → s.closed = false → 0 < s.freeSlots →
      EngStep probe s { s with pending := rest, freeSlots := s.freeSlots - 1,
                               inFlight := s.inFlight ++ [probe row] }
  | deliver : ∀ (l₁ l₂ : List VResult) (r : VResult) (s : EngState),
      s.inFlight = l₁ ++ r :: l₂ → s.closed = false →
      EngStep probe s { s with inFlight := l₁ ++ l₂, freeSlots := s.freeSlots + 1,
                               delivered := s.delivered ++ [r] }
  | closeChan : ∀ (s : EngState),
      s.pending = [] → s.closed = false →
      EngStep probe s { s with closed := true }
  | sendOnClosed : ∀ (l₁ l₂ : List VResult) (r : VResult) (s : EngState),
      s.inFlight = l₁ ++ r :: l₂ → s.closed = true →
      EngStep probe s { s with panicked := true }

/-- Once the channel is closed no step delivers another result: the
consumer's count is frozen at whatever had been delivered before the
close. -/
theorem engStep_closed_frozen (probe : Nat × String → VResult) (s s' : EngState)
    (h : EngStep probe s s') (hc : s.closed = true) :
    s'.closed = true ∧ s'.delivered = s.delivered := by
  cases h with
  | launch row rest t hp hcl hs => rw [hcl] at hc; exact absurd hc (by decide)
  | deliver l₁ l₂ r t hif hcl => rw [hcl] at hc; exact absurd hc (by decide)
  | closeChan t hp hcl => rw [hcl] at hc; exact absurd hc (by decide)
  | sendOnClosed l₁ l₂ r t hif hcl => exact ⟨hc, rfl⟩

/-- A probe whose outcome is irrelevant to the schedule. -/
def probe0 : Nat × String → VResult := fun p => ⟨p.1, false, false, "", none⟩

/-- Initial engine state for a store holding one row. -/
def engInit : EngState := ⟨[(1, "http://u")], [], 10, false, [], false⟩

/-- After the producer launched the single probe task. -/
def engMid : EngState := ⟨[], [⟨1, false, false, "", none⟩], 9, false, [], false⟩

/-- After the producer's loop ended and `close(results)` fired with the
task still in flight. -/
def engBad : EngState := ⟨[], [⟨1, false, false, "", none⟩], 9, true, [], false⟩

/-- C6 (refuting schedule): for a one-row store, the run can reach a state
where the results channel is already closed while the single launched probe
task has not yet sent its result and the consumer has received zero of the
N = 1 results — so the channel is not closed only after every launched
probe task has sent its result, and the consumer's loop exits with a report
counting 0 of 1 rows (the late send panics). -/
theorem c6_close_before_send :
    Relation.ReflTransGen (EngStep probe0) engInit engBad ∧
    engBad.closed = true ∧ engBad.inFlight ≠ [] ∧
    engBad.delivered.length = 0 ∧ engInit.pending.length = 1 := by
  refine ⟨?_, rfl, by decide, rfl, rfl⟩
  have h1 : EngStep probe0 engInit engMid :=
    EngStep.launch (1, "http://u") [] engInit rfl rfl (by decide)
  have h2 : EngStep probe0 engMid engBad :=
    EngStep.closeChan engMid rfl rfl
  exact Relation.ReflTransGen.head h1 (Relation.ReflTransGen.single h2)

/-- The WHERE clause of the valid-only export read (`parser.go` line 310):
rows with `is_dead = FALSE AND is_redirect = FALSE`. -/
def validRows (store : List Row) : List Row :=
  store.filter (fun r => !r.isDead && !r.isRedirect)

/-- ORDER BY folder, title (`parser.go` line 311) as a Boolean comparison:
lexicographic on the folder string, then the title string. -/
def folderTitleLE (a b : Row) : Bool :=
  decide (a.folder < b.folder ∨ (a.folder = b.folder ∧ a.title ≤ b.title))

/-- The ordered read feeding the valid-only export: the filtered rows in
folder-then-title order. -/
def readValid (store : List Row) : List Row :=
  (validRows store).mergeSort folderTitleLE

/-- Append a row to its folder's group, keeping the first-appearance order
of folders within this list; the Go `map` iteration order itself is
unordered, which the theorem handles by quantifying over permutations of
the groups. -/
def addToGroup (gs : List (String × List Row)) (f : String) (r : Row) :
    List (String × List Row) :=
  match gs with
  | [] => [(f, [r])]
  | (k, items) :: rest =>
    if k = f then (k, items ++ [r]) :: rest else (k, items) :: addToGroup rest f r

/-- The grouping loop of `parser.go` lines 319-326. -/
def groupByFolder (rows : List Row) : List (String × List Row) :=
  rows.foldl (fun gs r => addToGroup gs r.folder r) []

/-- The link records the export writes, one folder block after another in
the given iteration order (`parser.go` lines 350-371; each link contributes
its url and title to the output document). -/
def exportLinks (gs : List (String × List Row)) : List Row :=
  (gs.map Prod.snd).flatten

theorem addToGroup_flatten_perm : ∀ (gs : List (String × List Row)) (f : String) (r : Row),
    (((addToGroup gs f r).map Prod.snd).flatten).Perm ((gs.map Prod.snd).flatten ++ [r])
  | [], f, r => by simp [addToGroup]
  | (k, items) :: rest, f, r => by
    rw [addToGroup]
    by_cases hk : k = f
    · rw [if_pos hk]
      simp only [List.map_cons, List.flatten_cons, List.append_assoc]
      exact (@List.perm_append_comm _ [r] _).append_left items
    · rw [if_neg hk]
      simp only [List.map_cons, List.flatten_cons, List.append_assoc]
      have ih := addToGroup_flatten_perm rest f r
      exact ih.append_left items

theorem foldl_group_flatten_perm :
    ∀ (rows : List Row) (gs : List (String × List Row)),
    (((rows.foldl (fun gs r => addToGroup gs r.folder r) gs).map Prod.snd).flatten).Perm
      ((gs.map Prod.snd).flatten ++ rows)
  | [], gs => by simp
  | r :: rest, gs => by
    rw [List.foldl_cons]
    have ih := foldl_group_flatten_perm rest (addToGroup gs r.folder r)
    have hstep := (addToGroup_flatten_perm gs r.folder r).append_right rest
    rw [List.append_assoc, List.singleton_append] at hstep
    exact ih.trans hstep

theorem groupByFolder_flatten_perm (rows : List Row) :
    (((groupByFolder rows).map Prod.snd).flatten).Perm rows := by
  have h := foldl_group_flatten_perm rows []
  simpa using h

theorem folderTitleLE_trans : ∀ (a b c : Row),
    folderTitleLE a b → folderTitleLE b c → folderTitleLE a c := by
  intro a b c hab hbc
  simp only [folderTitleLE, decide_eq_true_eq] at hab hbc ⊢
  rcases hab with h1 | ⟨h1, h1t⟩
  · rcases hbc with h2 | ⟨h2, h2t⟩
    · exact Or.inl (lt_trans h1 h2)
    · exact Or.inl (lt_of_lt_of_le h1 (le_of_eq h2))
  · rcases hbc with h2 | ⟨h2, h2t⟩
    · exact Or.inl (lt_of_le_of_lt (le_of_eq h1) h2)
    · exact Or.inr ⟨h1.trans h2, le_trans h1t h2t⟩

theorem folderTitleLE_total : ∀ (a b : Row), folderTitleLE a b || folderTitleLE b a := by
  intro a b
  simp only [folderTitleLE, Bool.or_eq_true, decide_eq_true_eq]
  rcases lt_trichotomy a.folder b.folder with h | h | h
  · exact Or.inl (Or.inl h)
  · rcases le_total a.title b.title with ht | ht
    · exact Or.inl (Or.inr ⟨h, ht⟩)
    · exact Or.inr (Or.inr ⟨h.symm, ht⟩)
  · exact Or.inr (Or.inl h)

/-- C9: whatever folder-iteration order the Go map produces (any
permutation `gs` of the grouped read), the valid-only export emits exactly
the stored records with `dead = false` and `redirect = false` (as a
multiset), none of the emitted records is dead or redirecting, and the read
feeding it is ordered by folder then title. -/
theorem c9_valid_export :
    ∀ (store : List Row) (gs : List (String × List Row)),
    gs.Perm (groupByFolder (readValid store)) →
    (exportLinks gs).Perm (validRows store) ∧
    (∀ r ∈ exportLinks gs, r.isDead = false ∧ r.isRedirect = false) ∧
    (readValid store).Pairwise (fun a b => folderTitleLE a b) := by
  intro store gs hperm
  have hflat : (exportLinks gs).Perm (validRows store) := by
    have h1 := (hperm.map Prod.snd).flatten
    have h2 := groupByFolder_flatten_perm (readValid store)
    have h3 : (readValid store).Perm (validRows store) := List.mergeSort_perm _ _
    exact (h1.trans h2).trans h3
  refine ⟨hflat, ?_, ?_⟩
  · intro r hr
    have hmem : r ∈ validRows store := hflat.mem_iff.mp hr
    rw [validRows, List.mem_filter] at hmem
    have hcond := hmem.2
    simp only [Bool.and_eq_true, Bool.not_eq_true'] at hcond
    exact hcond
  · exact List.sorted_mergeSort folderTitleLE_trans folderTitleLE_total (validRows store)

/-- A store with one dead row, one redirecting row and two valid rows in
two folders, instantiating `c9_valid_export`. -/
def c9store : List Row :=
  [⟨1, "t1", "http://1", "B", false, false, "", false, none⟩,
   ⟨2, "t2", "http://2", "A", true, false, "", false, none⟩,
   ⟨3, "t3", "http://3", "A", false, true, "http://x", false, none⟩,
   ⟨4, "t4", "http://4", "A", false, false, "", false, none⟩]

/-- Witness for `c9_valid_export` at the concrete store, with the groups in
their first-appearance order. -/
theorem c9_witness :
    (exportLinks (groupByFolder (readValid c9store))).Perm (validRows c9store) ∧
    (∀ r ∈ exportLinks (groupByFolder (readValid c9store)),
      r.isDead = false ∧ r.isRedirect = false) ∧
    (readValid c9store).Pairwise (fun a b => folderTitleLE a b) :=
  c9_valid_export c9store (groupByFolder (readValid c9store)) (List.Perm.refl _)

end BookmarkParser
